import Mathlib

/-!
Verification of the react-uploady queue/batch state machine and chunked-transfer
protocol: a shallow embedding of
`src/packages/core/uploader/src/queue/batchHelpers.js`,
`src/packages/uploader/src/queue/index.js` and
`src/packages/chunked-sender/src/chunkedSender/sendChunk.js`,
with theorems settling the frozen claims about them.

JS objects keyed by strings are modelled as association lists; a crashing
lookup (JS `TypeError` on `undefined`) is modelled by `Option`, with `none`
meaning the original code would have thrown before producing a state.
External listeners answering cancellable hooks are modelled as explicit
arguments (their answer), and the fire-and-forget event bus as a returned
list of emitted events.
-/

namespace Uploady

/-- Item lifecycle states (`FILE_STATES` of `@rpldy/shared`). -/
inductive FileState
  | pending | added | uploading | finished | error | cancelled | aborted
deriving DecidableEq

/-- Batch lifecycle states (`BATCH_STATES` of `@rpldy/shared`). -/
inductive BatchState
  | pending | added | processing | uploading | finished | cancelled | error
deriving DecidableEq

/-- Modelled from the spec: `ITEM_FINALIZE_STATES` (`uploader/src/consts`, not
under `src/`); glossary: "Finalize state: a terminal item state (finished,
error, cancelled, aborted)". -/
def ITEM_FINALIZE_STATES : List FileState :=
  [FileState.finished, FileState.error, FileState.cancelled, FileState.aborted]

/-- The source file/payload an item references (only its byte size matters here). -/
structure FileLike where
  size : Nat
deriving DecidableEq

/-- A `BatchItem` (data model of the spec, section 3): identity, owning batch id,
lifecycle state, progress counters, and the recycle back-references. -/
structure BatchItem where
  id : String
  batchId : String
  state : FileState
  file : FileLike
  loaded : Nat
  completed : Nat
  recycled : Bool
  previousBatch : Option String
deriving DecidableEq

/-- A `Batch`: identity, lifecycle state and its (nested) item objects. -/
structure Batch where
  id : String
  state : BatchState
  items : List BatchItem
deriving DecidableEq

/-- An options object: keys mapped to values, where a key present with `none`
models a JS key explicitly set to `undefined` (distinct from an absent key). -/
abbrev UploadOptions := List (String × Option String)

/-- `BatchData`: a batch paired with its effective per-batch options. -/
structure BatchData where
  batch : Batch
  batchOptions : UploadOptions
deriving DecidableEq

/-- The queue store state (`queue/index.js`): item mapping, FIFO pending id
sequence, batch mapping, current batch and active ids. -/
structure State where
  itemQueue : List String
  currentBatch : Option String
  batches : List (String × BatchData)
  items : List (String × BatchItem)
  activeIds : List String
deriving DecidableEq

/-- Association-list lookup (JS property read `obj[key]`): first entry wins. -/
def alookup {α : Type} (l : List (String × α)) (k : String) : Option α :=
  match l with
  | [] => none
  | kv :: rest => if kv.1 = k then some kv.2 else alookup rest k

/-- JS `delete obj[key]`: drop every entry carrying the key. -/
def eraseKey {α : Type} (l : List (String × α)) (k : String) : List (String × α) :=
  match l with
  | [] => []
  | kv :: rest => if kv.1 = k then eraseKey rest k else kv :: eraseKey rest k

/-- JS `obj[key] = v`: replace the key's entry in place, or append a new one. -/
def setKey {α : Type} (l : List (String × α)) (k : String) (v : α) :
    List (String × α) :=
  match l with
  | [] => [(k, v)]
  | kv :: rest => if kv.1 = k then (k, v) :: rest else kv :: setKey rest k v

/-- JS `array.splice(array.indexOf(x), 1)` guarded by `~index`:
remove the first occurrence of `x`, if any. -/
def eraseFirst (l : List String) (x : String) : List String :=
  match l with
  | [] => []
  | y :: rest => if y = x then rest else y :: eraseFirst rest x

/-- Map a function over the value stored at one key, leaving the rest alone
(the shape of every `updateState` mutator that edits a single mapping entry). -/
def mapValueAt {α : Type} (l : List (String × α)) (k : String) (f : α → α) :
    List (String × α) :=
  l.map fun kv => if kv.1 = k then (kv.1, f kv.2) else kv

/-- Remove the first item with the given id (`findIndex` + `splice` in
`detachRecycledFromPreviousBatch`). -/
def eraseItemById (l : List BatchItem) (iid : String) : List BatchItem :=
  match l with
  | [] => []
  | it :: rest => if it.id = iid then rest else it :: eraseItemById rest iid

/-- Modelled from the spec: the shared merge helper (`@rpldy/shared`
`utils/merge`, not under `src/`), parametrised by its `undefinedOverwrites`
option exactly as `sendChunk.js` line 24 requests it. Each source key is
written onto the target; a key holding an explicit `undefined` is written
only when `undefinedOverwrites` is on, and skipped otherwise. -/
def getMerge (undefinedOverwrites : Bool) (target source : UploadOptions) :
    UploadOptions :=
  source.foldl
    (fun t kv =>
      if undefinedOverwrites || kv.2.isSome then setKey t kv.1 kv.2 else t)
    target

/-- The variadic JS call `m(target, src1, src2, ...)`: fold the sources onto the
target, skipping falsy (null/undefined) sources. -/
def mergeCall (undefinedOverwrites : Bool) (target : UploadOptions)
    (sources : List (Option UploadOptions)) : UploadOptions :=
  sources.foldl
    (fun t s =>
      match s with
      | some src => getMerge undefinedOverwrites t src
      | none => t)
    target

/-- Modelled from the spec: the plain `merge` export of `@rpldy/shared` (not
under `src/`), as imported by `batchHelpers.js`. The explicit-undefined
overwrite behaviour is an opt-in mode of `getMerge`: within `src/`,
`sendChunk.js` line 24 builds a distinct `mergeWithUndefined` via
`getMerge({ undefinedOverwrites: true })`, so the plain `merge` default
leaves that option off and skips source keys holding an explicit undefined. -/
def merge (target : UploadOptions) (sources : List (Option UploadOptions)) :
    UploadOptions :=
  mergeCall false target sources

/-- `mergeWithUndefined = getMerge({ undefinedOverwrites: true })`
(`sendChunk.js` line 24). -/
def mergeWithUndefined (target : UploadOptions)
    (sources : List (Option UploadOptions)) : UploadOptions :=
  mergeCall true target sources

/-- `getBatchFromState` (`batchHelpers.js`): `state.batches[id].batch`;
`none` models the JS crash when the batch entry is absent. -/
def getBatchFromState (s : State) (id : String) : Option Batch :=
  (alookup s.batches id).map fun bd => bd.batch

/-- `getBatchFromItemId` (`batchHelpers.js`): the batch owning the item per the
store's item mapping; `none` models the JS crash on a missing item or batch. -/
def getBatchFromItemId (s : State) (itemId : String) : Option Batch :=
  (alookup s.items itemId).bind fun it =>
    (alookup s.batches it.batchId).map fun bd => bd.batch

/-- The detached snapshot carried by a batch event (`triggerUploaderBatchEvent`):
the batch's own fields with `items` replaced by the store-mapping copies
(`unwrap(stateItems[id])`); a `none` entry models an id the mapping lost. -/
structure EventBatch where
  id : String
  state : BatchState
  items : List (Option BatchItem)
deriving DecidableEq

/-- Events emitted to the bus by the modelled operations. -/
inductive UploaderEvent
  | batchStart (b : Batch)
  | batchFinish (e : EventBatch)
  | itemProgress (it : BatchItem)
deriving DecidableEq

/-- `triggerUploaderBatchEvent` (`batchHelpers.js`): build the detached
batch+items snapshot from the current state. -/
def triggerUploaderBatchEvent (s : State) (batchId : String) :
    Option EventBatch :=
  (getBatchFromState s batchId).map fun b =>
    { id := b.id
      state := b.state
      items := b.items.map fun it => alookup s.items it.id }

/-- One step of `removeBatchItems`' loop: drop an id from the item mapping and
from the pending sequence. -/
def State.removeItemEntry (s : State) (iid : String) : State :=
  { s with items := eraseKey s.items iid, itemQueue := eraseFirst s.itemQueue iid }

/-- The `batch.items.forEach` loop of `removeBatchItems`, folded over the ids. -/
def removeEntries (s : State) (ids : List String) : State :=
  ids.foldl (fun st i => st.removeItemEntry i) s

/-- `removeBatchItems` (`batchHelpers.js`): delete each of the batch's items
from the item mapping and the pending sequence. -/
def removeBatchItems (s : State) (batchId : String) : Option State :=
  (getBatchFromState s batchId).map fun b =>
    removeEntries s (b.items.map fun it => it.id)

/-- `removeBatch` (`batchHelpers.js`): delete the batch entry. -/
def removeBatch (s : State) (batchId : String) : State :=
  { s with batches := eraseKey s.batches batchId }

/-- `isNewBatchStarting` (`batchHelpers.js`): the item's batch differs from
`currentBatch`. -/
def isNewBatchStarting (s : State) (itemId : String) : Option Bool :=
  (getBatchFromItemId s itemId).map fun b =>
    decide (s.currentBatch ≠ some b.id)

/-- `isBatchFinished` (`batchHelpers.js`): pending sequence empty, or its head
item belongs to a different batch than `currentBatch`. -/
def isBatchFinished (s : State) : Option Bool :=
  match s.itemQueue with
  | [] => some true
  | h :: _ => isNewBatchStarting s h

/-- `loadNewBatchForItem` (`batchHelpers.js`): issue the cancellable
`BATCH_START` interception carrying the item's batch; `isCancelled` is the
listener's answer. On cancel the state is untouched; otherwise `currentBatch`
is set to the batch id. Returns the new state, the boolean result
(`!isCancelled`) and the issued event. -/
def loadNewBatchForItem (s : State) (itemId : String) (isCancelled : Bool) :
    Option (State × Bool × UploaderEvent) :=
  (getBatchFromItemId s itemId).map fun b =>
    if isCancelled then (s, false, UploaderEvent.batchStart b)
    else ({ s with currentBatch := some b.id }, true, UploaderEvent.batchStart b)

/-- `cleanUpFinishedBatch` (`batchHelpers.js`): when `currentBatch` is set, its
batch entry exists and the batch is finished, emit `BATCH_FINISH` with the
detached snapshot, then purge the batch's items and the batch entry. Returns
the new state and the emitted events. -/
def cleanUpFinishedBatch (s : State) : Option (State × List UploaderEvent) :=
  match s.currentBatch with
  | none => some (s, [])
  | some batchId =>
    match alookup s.batches batchId with
    | none => some (s, [])
    | some _ =>
      (isBatchFinished s).bind fun fin =>
        if fin then
          (triggerUploaderBatchEvent s batchId).bind fun ev =>
            (removeBatchItems s batchId).map fun s1 =>
              (removeBatch s1 batchId, [UploaderEvent.batchFinish ev])
        else some (s, [])

/-- `detachRecycledFromPreviousBatch` (`batchHelpers.js`): for a recycled item
whose `previousBatch` still names a live batch, and whose store mapping still
attaches it to that same batch, splice the item out of that batch's list. -/
def detachRecycledFromPreviousBatch (s : State) (item : BatchItem) :
    Option State :=
  match item.previousBatch with
  | none => some s
  | some prev =>
    if item.recycled && (alookup s.batches prev).isSome then
      (getBatchFromItemId s item.id).map fun b =>
        if b.id = prev then
          { s with
            batches := mapValueAt s.batches prev fun bd =>
              { bd with
                batch := { bd.batch with
                  items := eraseItemById bd.batch.items item.id } } }
        else s
    else some s

/-- `preparePendingForUpload` (`batchHelpers.js`): every batch in pending state
has its nested items and itself reset to added, and its stored options
replaced by `merge({}, batchOptions, uploadOptions)` with the plain shared
merge. -/
def preparePendingForUpload (s : State) (uploadOptions : Option UploadOptions) :
    State :=
  { s with
    batches := s.batches.map fun kv =>
      if kv.2.batch.state = BatchState.pending then
        (kv.1,
          { batch := { kv.2.batch with
              state := BatchState.added
              items := kv.2.batch.items.map fun it =>
                { it with state := FileState.added } }
            batchOptions := merge [] [some kv.2.batchOptions, uploadOptions] })
      else kv }

/-- `ensureNonUploadingBatchCleaned` (`batchHelpers.js`): when no item of the
batch is still active (non-finalized), purge its items and the batch entry. -/
def ensureNonUploadingBatchCleaned (s : State) (batchId : String) :
    Option State :=
  (getBatchFromState s batchId).bind fun b =>
    match b.items.find? (fun it => !(decide (it.state ∈ ITEM_FINALIZE_STATES))) with
    | some _ => some s
    | none => (removeBatchItems s batchId).map fun s1 => removeBatch s1 batchId

/-- Update one item's progress counters in the item mapping
(the `updateState` mutator of the `SENDER_EVENTS.PROGRESS` handler). -/
def updateItemEntry (l : List (String × BatchItem)) (iid : String)
    (loaded completed : Nat) : List (String × BatchItem) :=
  mapValueAt l iid fun it => { it with loaded := loaded, completed := completed }

/-- The `SENDER_EVENTS.PROGRESS` handler (`uploader/src/queue/index.js`):
for a tracked item, write its `loaded`/`completed` counters and trigger
`ITEM_PROGRESS` with the updated item from the new snapshot; otherwise do
nothing. -/
def progressHandler (s : State) (item : BatchItem) (completed loaded : Nat) :
    State × List UploaderEvent :=
  match alookup s.items item.id with
  | none => (s, [])
  | some _ =>
    let s1 : State :=
      { s with items := updateItemEntry s.items item.id loaded completed }
    match alookup s1.items item.id with
    | some updated => (s1, [UploaderEvent.itemProgress updated])
    | none => (s1, [])

/-! ## Chunked sender: `sendChunk.js` -/

/-- A blob of chunk data; only its byte size matters here. -/
structure ChunkData where
  size : Nat
deriving DecidableEq

/-- A `Chunk` (data model, section 3): identity, index, byte range, attempt
counter, and the lazily-materialized data slice. `endByte` renders the source
field `end`. -/
structure Chunk where
  id : String
  index : Nat
  start : Nat
  endByte : Nat
  attempt : Nat
  data : Option ChunkData
deriving DecidableEq

/-- Modelled from the spec: `getChunkDataFromFile` (`chunked-sender/src/utils`,
not under `src/`) slices the item's file over the chunk's byte range; per the
spec's error model, "chunk slicing produces no data" is possible — here exactly
when the range clamped to the file is empty. -/
def getChunkDataFromFile (file : FileLike) (start endByte : Nat) :
    Option ChunkData :=
  let stop := min endByte file.size
  if start < stop then some ⟨stop - start⟩ else none

/-- The candidate send options of a chunk request: general option fields plus
the headers object (in which `Content-Range` is one key). -/
structure SendOptions where
  fields : UploadOptions
  headers : UploadOptions
deriving DecidableEq

/-- `getContentRangeValue` (`sendChunk.js`): `data && "bytes s-e/total"`;
`none` models the falsy value produced when the data is missing. -/
def getContentRangeValue (chunk : Chunk) (data : Option ChunkData)
    (item : BatchItem) : Option String :=
  data.map fun d =>
    let st := chunk.start
    let e := chunk.start + d.size - 1
    let fs := item.file.size
    s!"bytes {st}-{e}/{fs}"

/-- A partial override of the send options returned by a `CHUNK_START`
listener: top-level fields to merge, and optionally a headers object to merge
(absent means the override carries no `headers` key). -/
structure SendOptionsPatch where
  fields : UploadOptions
  headers : Option UploadOptions
deriving DecidableEq

/-- `mergeWithUndefined({}, sendOptions, updatedData?.sendOptions)` shaped over
the structured options: with no patch the base is copied unchanged; with a
patch, fields (and the headers object, when present) are merged with the
explicit-undefined-overwrites rule of `getMerge({ undefinedOverwrites: true })`. -/
def mergeSendOptions (base : SendOptions) (patch : Option SendOptionsPatch) :
    SendOptions :=
  match patch with
  | none => base
  | some p =>
    { fields := getMerge true base.fields p.fields
      headers :=
        match p.headers with
        | none => base.headers
        | some h => getMerge true base.headers h }

/-- The object a `CHUNK_START` listener may return. `url` is
`Option (Option String)`: outer `none` = no `url` property, `some none` = a
`url` property explicitly set to `undefined`, `some (some u)` = a string. -/
structure UpdatedData where
  url : Option (Option String)
  sendOptions : Option SendOptionsPatch
deriving DecidableEq

/-- The `CHUNK_START` listener's answer as seen by `uploadChunkWithUpdatedData`:
`false` (skip), an override object, or nothing. -/
inductive ChunkStartResponse
  | skip
  | update (d : UpdatedData)
  | proceed
deriving DecidableEq

/-- The settled value of a send request promise
(`SendResult.request`: `{ state, response, status }`). -/
structure SendResultResponse where
  state : FileState
  response : String
  status : Nat
deriving DecidableEq

/-- A settled transport-level `SendResult`: the response its request resolves
to, what its `abort()` returns, and its sender type tag. -/
structure InnerSendResult where
  request : SendResultResponse
  abortReturns : Bool
  senderType : String
deriving DecidableEq

/-- `getSkippedResult` (`sendChunk.js`): a synthetic finished result with
success status, a trivially succeeding abort, and the skip sender type. -/
def getSkippedResult : InnerSendResult :=
  { request :=
      { state := FileState.finished
        response := "skipping chunk as instructed by CHUNK_START handler"
        status := 200 }
    abortReturns := true
    senderType := "chunk-skipped-sender" }

/-- The chunked-sender state read by `sendChunk` (`chunkedState.getState()`). -/
structure ChunkedState where
  chunks : List Chunk
  url : String
  sendOptions : SendOptions
deriving DecidableEq

/-- What `uploadChunkWithUpdatedData` does after the `CHUNK_START` answer:
skip the network entirely, or call `xhrSend` with a url, options and payload. -/
inductive ChunkSendOutcome
  | skipped
  | sent (url : String) (options : SendOptions) (payload : Option ChunkData)
deriving DecidableEq

/-- The base send options built by `uploadChunkWithUpdatedData`: the state's
sendOptions spread with its headers extended by this chunk's `Content-Range`. -/
def baseChunkSendOptions (cs : ChunkedState) (chunk : Chunk)
    (item : BatchItem) : SendOptions :=
  { fields := cs.sendOptions.fields
    headers := setKey cs.sendOptions.headers "Content-Range"
      (getContentRangeValue chunk chunk.data item) }

/-- `uploadChunkWithUpdatedData` (`sendChunk.js`): build the base options (state
sendOptions plus the `Content-Range` header for this chunk), then — per the
listener's answer — skip, or send with `updatedData?.url || state.url` and
`mergeWithUndefined({}, sendOptions, updatedData?.sendOptions)`. -/
def uploadChunkWithUpdatedData (cs : ChunkedState) (chunk : Chunk)
    (item : BatchItem) (resp : ChunkStartResponse) : ChunkSendOutcome :=
  let sendOptions : SendOptions := baseChunkSendOptions cs chunk item
  match resp with
  | ChunkStartResponse.skip => ChunkSendOutcome.skipped
  | ChunkStartResponse.update d =>
    ChunkSendOutcome.sent
      (match d.url.join with
       | some u => if u = "" then cs.url else u
       | none => cs.url)
      (mergeSendOptions sendOptions d.sendOptions)
      chunk.data
  | ChunkStartResponse.proceed =>
    ChunkSendOutcome.sent cs.url (mergeSendOptions sendOptions none) chunk.data

/-- A promise known to eventually resolve, denoted by its resolved value;
`dthen` is the `.then` continuation attachment, which delivers the value to the
continuation whether it is registered before or after resolution. -/
structure Deferred (α : Type) where
  value : α
deriving DecidableEq

/-- `.then` on an always-resolving promise. -/
def Deferred.dthen {α β : Type} (p : Deferred α) (f : α → β) : Deferred β :=
  ⟨f p.value⟩

/-- The `SendResult` returned by `sendChunk`'s default export: the pending
chunk request, the request promise threaded through `.then`, the abort whose
immediate return is `true` and whose forwarding to the transport handle is
queued on the request promise, and the passthrough sender type. -/
structure OuterSendResult where
  inner : Deferred InnerSendResult
  request : Deferred SendResultResponse
  abortImmediate : Bool
  abortForwarded : Deferred Bool
  senderType : String
deriving DecidableEq

/-- Everything `sendChunk` produces when it does not throw: the chunked state
after the (possible) slice, the fresh chunk actually operated on, the upload
outcome, and the returned `SendResult`. -/
structure SendChunkOk where
  newState : ChunkedState
  usedChunk : Chunk
  outcome : ChunkSendOutcome
  result : OuterSendResult
deriving DecidableEq

/-- The slice step of `sendChunk`'s default export: when the caller-passed
chunk has no data, `chunkedState.updateChunk` stores
`getChunkDataFromFile(item.file, chunk.start, chunk.end)` on the fresh copy of
the chunk (the stored entry at `chunk.index`, per the `getFreshChunk` comment
at `sendChunk.js` line 103); otherwise the state is untouched. -/
def sendChunkSliceStep (chunk : Chunk) (cs : ChunkedState) (item : BatchItem) :
    ChunkedState :=
  if chunk.data.isNone then
    match cs.chunks[chunk.index]? with
    | some stored =>
      { cs with
        chunks := cs.chunks.set chunk.index
          { stored with
            data := getChunkDataFromFile item.file chunk.start chunk.endByte } }
    | none => cs
  else cs

/-- The successful return of `sendChunk`'s default export: the chunk request
promise for the fresh chunk (skipped result or transport call), the returned
request threaded through `.then`, and the abort closure — immediate return
`true`, with the inner abort invocation queued on the request promise. -/
def mkSendChunkOk (cs1 : ChunkedState) (fresh : Chunk) (item : BatchItem)
    (resp : ChunkStartResponse)
    (xhr : String → SendOptions → Option ChunkData → InnerSendResult) :
    SendChunkOk :=
  let outcome := uploadChunkWithUpdatedData cs1 fresh item resp
  let inner : Deferred InnerSendResult :=
    ⟨match outcome with
      | ChunkSendOutcome.skipped => getSkippedResult
      | ChunkSendOutcome.sent u o p => xhr u o p⟩
  { newState := cs1
    usedChunk := fresh
    outcome := outcome
    result :=
      { inner := inner
        request := inner.dthen fun r => r.request
        abortImmediate := true
        abortForwarded := inner.dthen fun r => r.abortReturns
        senderType := "chunk-passthrough-sender" } }

/-- `sendChunk`'s default export (`sendChunk.js` lines 89-124). `resp` is the
`CHUNK_START` listener's answer and `xhr` the black-box transport
(`xhrSend`), giving the settled result of a network send. Outer `none` models
a fresh-chunk lookup failure (outside the modelled behaviour);
`Except.error` models the synchronous `throw new ChunkedSendError(...)`. -/
def sendChunk (chunk : Chunk) (cs : ChunkedState) (item : BatchItem)
    (resp : ChunkStartResponse)
    (xhr : String → SendOptions → Option ChunkData → InnerSendResult) :
    Option (Except String SendChunkOk) :=
  let cs1 := sendChunkSliceStep chunk cs item
  match cs1.chunks[chunk.index]? with
  | none => none
  | some fresh =>
    if fresh.data.isNone then
      some (Except.error "chunk failure - failed to slice")
    else
      some (Except.ok (mkSendChunkOk cs1 fresh item resp xhr))

/-! ## Claim-side comparison definitions -/

/-- The invariant asserted by the spec: `currentBatch`, if set, names a batch
(present in the store) with at least one non-finalized item. -/
def currentBatchInvariant (s : State) : Prop :=
  ∀ bid, s.currentBatch = some bid →
    ∃ bd, alookup s.batches bid = some bd ∧
      ∃ it ∈ bd.batch.items, it.state ∉ ITEM_FINALIZE_STATES

/-- The claim's merge semantics applied to the overridden URL: a `url` property
present on the override — even one explicitly set to undefined — replaces the
base URL (explicit-undefined-overwrites); an absent property keeps the base. -/
def claimMergedUrl (base : String) (d : UpdatedData) : Option String :=
  match d.url with
  | some v => v
  | none => some base

/-- Project the URL a `sendChunk` call actually sent to, if it sent at all. -/
def sentUrl : Option (Except String SendChunkOk) → Option String
  | some (Except.ok r) =>
    match r.outcome with
    | ChunkSendOutcome.sent u _ _ => some u
    | _ => none
  | _ => none

/-! ## Concrete fixtures used by counterexamples and witnesses -/

/-- A plain item fixture. -/
def mkItem (iid bid : String) (st : FileState) : BatchItem :=
  { id := iid, batchId := bid, state := st, file := ⟨4⟩, loaded := 0,
    completed := 0, recycled := false, previousBatch := none }

def iC1 : BatchItem := mkItem "i1" "b1" FileState.pending

def sC1 : State :=
  { itemQueue := ["i1"], currentBatch := none,
    batches := [("b1",
      { batch := { id := "b1", state := BatchState.pending, items := [iC1] }
        batchOptions := [("autoUpload", some "true")] })],
    items := [("i1", iC1)], activeIds := [] }

def iC3 : BatchItem := mkItem "i1" "b1" FileState.aborted

def bdC3 : BatchData :=
  { batch := { id := "b1", state := BatchState.uploading, items := [iC3] }
    batchOptions := [] }

def sC3 : State :=
  { itemQueue := [], currentBatch := some "b1", batches := [("b1", bdC3)],
    items := [("i1", iC3)], activeIds := [] }

def sC3after : State :=
  { itemQueue := [], currentBatch := some "b1", batches := [], items := [],
    activeIds := [] }

def iC4 : BatchItem := mkItem "i1" "b1" FileState.added

def bC4 : Batch := { id := "b1", state := BatchState.added, items := [iC4] }

def sC4 : State :=
  { itemQueue := ["i1"], currentBatch := some "b0",
    batches := [("b0",
      { batch := { id := "b0", state := BatchState.finished, items := [] }
        batchOptions := [] }),
      ("b1", { batch := bC4, batchOptions := [] })],
    items := [("i1", iC4)], activeIds := [] }

def iC5 : BatchItem :=
  { id := "i1", batchId := "b1", state := FileState.added, file := ⟨4⟩,
    loaded := 0, completed := 0, recycled := true, previousBatch := some "b0" }

def iC5stale : BatchItem :=
  { id := "i1", batchId := "b0", state := FileState.aborted, file := ⟨4⟩,
    loaded := 0, completed := 0, recycled := true, previousBatch := some "b0" }

def bC5prev : Batch :=
  { id := "b0", state := BatchState.uploading, items := [iC5stale] }

def sC5 : State :=
  { itemQueue := ["i1"], currentBatch := none,
    batches := [("b0", { batch := bC5prev, batchOptions := [] }),
      ("b1",
        { batch := { id := "b1", state := BatchState.added, items := [iC5] }
          batchOptions := [] })],
    items := [("i1", iC5)], activeIds := [] }

def sC5b : State :=
  { itemQueue := ["i1"], currentBatch := none,
    batches := [("b0", { batch := bC5prev, batchOptions := [] })],
    items := [("i1", iC5stale)], activeIds := [] }

def iC7a : BatchItem := mkItem "i1" "b1" FileState.finished

def iC7b : BatchItem := mkItem "i2" "b1" FileState.error

def iC7c : BatchItem := mkItem "i9" "b2" FileState.added

def bdC7 : BatchData :=
  { batch := { id := "b1", state := BatchState.uploading, items := [iC7a, iC7b] }
    batchOptions := [] }

def sC7 : State :=
  { itemQueue := ["i9", "i1"], currentBatch := some "b1",
    batches := [("b1", bdC7),
      ("b2",
        { batch := { id := "b2", state := BatchState.added, items := [iC7c] }
          batchOptions := [] })],
    items := [("i1", iC7a), ("i2", iC7b), ("i9", iC7c)], activeIds := [] }

def iC8 : BatchItem := mkItem "i1" "b1" FileState.uploading

def iC8x : BatchItem := mkItem "zz" "b1" FileState.uploading

def sC8 : State :=
  { itemQueue := ["i1"], currentBatch := none, batches := [],
    items := [("i1", iC8)], activeIds := [] }

/-- A black-box transport fixture. -/
def xhr0 : String → SendOptions → Option ChunkData → InnerSendResult :=
  fun _ _ _ =>
    { request := { state := FileState.finished, response := "ok", status := 200 }
      abortReturns := true, senderType := "xhr-sender" }

def itC2 : BatchItem := { mkItem "i9" "b9" FileState.uploading with file := ⟨0⟩ }

def chC2 : Chunk :=
  { id := "c1", index := 0, start := 0, endByte := 4, attempt := 0, data := none }

def csC2 : ChunkedState :=
  { chunks := [chC2], url := "https://up",
    sendOptions := { fields := [], headers := [] } }

def itC6 : BatchItem := mkItem "i1" "b1" FileState.uploading

def chC6 : Chunk :=
  { id := "c1", index := 0, start := 0, endByte := 4, attempt := 0,
    data := some ⟨4⟩ }

def csC6 : ChunkedState :=
  { chunks := [chC6], url := "https://base",
    sendOptions := { fields := [("method", some "POST")], headers := [] } }

def dC6 : UpdatedData := { url := some none, sendOptions := none }

/-- The concrete `SendChunkOk` produced by a skipped send of `chC6`. -/
def okC9 : SendChunkOk :=
  { newState := csC6, usedChunk := chC6, outcome := ChunkSendOutcome.skipped,
    result :=
      { inner := ⟨getSkippedResult⟩, request := ⟨getSkippedResult.request⟩,
        abortImmediate := true, abortForwarded := ⟨true⟩,
        senderType := "chunk-passthrough-sender" } }

/-! ## Helper lemmas about the mapping and sequence primitives -/

theorem alookup_eraseKey_self {α : Type} (l : List (String × α)) (k : String) :
    alookup (eraseKey l k) k = none := by
  induction l with
  | nil => rfl
  | cons kv rest ih =>
    by_cases h : kv.1 = k
    · simp [eraseKey, h, ih]
    · simp [eraseKey, alookup, h, ih]

theorem alookup_eraseKey_ne {α : Type} (l : List (String × α)) {k k2 : String}
    (h : k2 ≠ k) : alookup (eraseKey l k) k2 = alookup l k2 := by
  have h2 : ¬k = k2 := fun e => h e.symm
  induction l with
  | nil => rfl
  | cons kv rest ih =>
    by_cases hk : kv.1 = k
    · simp [eraseKey, hk, alookup, h, h2, ih]
    · by_cases hk2 : kv.1 = k2
      · simp [eraseKey, alookup, hk, hk2, h, h2]
      · simp [eraseKey, alookup, hk, hk2, h, h2, ih]

theorem alookup_setKey_self {α : Type} (l : List (String × α)) (k : String)
    (v : α) : alookup (setKey l k v) k = some v := by
  induction l with
  | nil => simp [setKey, alookup]
  | cons kv rest ih =>
    by_cases h : kv.1 = k
    · simp [setKey, h, alookup]
    · simp [setKey, h, alookup, ih]

theorem alookup_setKey_ne {α : Type} (l : List (String × α)) {k k2 : String}
    (v : α) (h : k2 ≠ k) : alookup (setKey l k v) k2 = alookup l k2 := by
  have h2 : ¬k = k2 := fun e => h e.symm
  induction l with
  | nil => simp [setKey, alookup, h2]
  | cons kv rest ih =>
    by_cases hk : kv.1 = k
    · simp [setKey, alookup, hk, h, h2]
    · by_cases hk2 : kv.1 = k2
      · simp [setKey, alookup, hk, hk2, h, h2]
      · simp [setKey, alookup, hk, hk2, h, h2, ih]

theorem alookup_mapValueAt {α : Type} (l : List (String × α)) (k k2 : String)
    (f : α → α) :
    alookup (mapValueAt l k f) k2 =
      if k2 = k then (alookup l k).map f else alookup l k2 := by
  induction l with
  | nil => simp [mapValueAt, alookup]
  | cons kv rest ih =>
    by_cases hk2 : k2 = k
    · subst hk2
      by_cases hk : kv.1 = k2
      · simp [mapValueAt, alookup, hk]
      · simp [mapValueAt, alookup, hk] at ih ⊢
        exact ih
    · by_cases hk : kv.1 = k
      · have hne : ¬kv.1 = k2 := by rw [hk]; exact fun e => hk2 e.symm
        have hne2 : ¬k = k2 := fun e => hk2 e.symm
        simp [mapValueAt, alookup, hk, hk2, hne, hne2] at ih ⊢
        exact ih
      · by_cases hkk2 : kv.1 = k2
        · simp [mapValueAt, alookup, hk, hkk2, hk2]
        · simp [mapValueAt, alookup, hk, hkk2, hk2] at ih ⊢
          exact ih

theorem mem_of_mem_eraseFirst {l : List String} {x y : String}
    (h : y ∈ eraseFirst l x) : y ∈ l := by
  induction l with
  | nil => exact absurd h (by simp [eraseFirst])
  | cons z rest ih =>
    by_cases hz : z = x
    · simp [eraseFirst, hz] at h
      exact List.mem_cons_of_mem _ h
    · simp [eraseFirst, hz] at h
      rcases h with h | h
      · exact h ▸ List.mem_cons_self _ _
      · exact List.mem_cons_of_mem _ (ih h)

theorem mem_eraseFirst_of_ne {l : List String} {x y : String} (hne : y ≠ x) :
    y ∈ eraseFirst l x ↔ y ∈ l := by
  induction l with
  | nil => simp [eraseFirst]
  | cons z rest ih =>
    by_cases hz : z = x
    · subst hz
      simp [eraseFirst, List.mem_cons, hne]
    · simp [eraseFirst, hz, List.mem_cons, ih]

theorem nodup_eraseFirst {l : List String} (h : l.Nodup) (x : String) :
    (eraseFirst l x).Nodup := by
  induction l with
  | nil => simp [eraseFirst]
  | cons z rest ih =>
    rcases List.nodup_cons.mp h with ⟨hz, hrest⟩
    by_cases hzx : z = x
    · simpa [eraseFirst, hzx] using hrest
    · simp only [eraseFirst, if_neg hzx]
      exact List.nodup_cons.mpr ⟨fun hm => hz (mem_of_mem_eraseFirst hm), ih hrest⟩

theorem not_mem_eraseFirst_self {l : List String} (h : l.Nodup) (x : String) :
    x ∉ eraseFirst l x := by
  induction l with
  | nil => simp [eraseFirst]
  | cons z rest ih =>
    rcases List.nodup_cons.mp h with ⟨hz, hrest⟩
    by_cases hzx : z = x
    · subst hzx
      simpa [eraseFirst] using hz
    · simp [eraseFirst, hzx, List.mem_cons]
      exact ⟨fun e => hzx e.symm, ih hrest⟩

theorem removeEntries_cons (s : State) (i : String) (ids : List String) :
    removeEntries s (i :: ids) = removeEntries (s.removeItemEntry i) ids := rfl

theorem removeEntries_batches (s : State) (ids : List String) :
    (removeEntries s ids).batches = s.batches := by
  induction ids generalizing s with
  | nil => rfl
  | cons i ids ih => rw [removeEntries_cons, ih]; rfl

theorem removeEntries_currentBatch (s : State) (ids : List String) :
    (removeEntries s ids).currentBatch = s.currentBatch := by
  induction ids generalizing s with
  | nil => rfl
  | cons i ids ih => rw [removeEntries_cons, ih]; rfl

theorem removeEntries_activeIds (s : State) (ids : List String) :
    (removeEntries s ids).activeIds = s.activeIds := by
  induction ids generalizing s with
  | nil => rfl
  | cons i ids ih => rw [removeEntries_cons, ih]; rfl

theorem alookup_removeEntries_of_not_mem (s : State) {ids : List String}
    {k : String} (h : k ∉ ids) :
    alookup (removeEntries s ids).items k = alookup s.items k := by
  induction ids generalizing s with
  | nil => rfl
  | cons i ids ih =>
    rw [removeEntries_cons, ih _ (fun hm => h (List.mem_cons_of_mem _ hm))]
    exact alookup_eraseKey_ne _ fun e => h (e ▸ List.mem_cons_self _ _)

theorem alookup_removeEntries_of_mem (s : State) {ids : List String}
    {k : String} (h : k ∈ ids) :
    alookup (removeEntries s ids).items k = none := by
  induction ids generalizing s with
  | nil => exact absurd h (List.not_mem_nil _)
  | cons i ids ih =>
    rw [removeEntries_cons]
    by_cases hm : k ∈ ids
    · exact ih _ hm
    · have hk : k = i := by
        rcases List.mem_cons.mp h with h1 | h1
        · exact h1
        · exact absurd h1 hm
      subst hk
      rw [alookup_removeEntries_of_not_mem _ hm]
      exact alookup_eraseKey_self _ _

theorem removeEntries_itemQueue_not_mem (s : State) {ids : List String}
    {k : String} (h : k ∉ ids) :
    k ∈ (removeEntries s ids).itemQueue ↔ k ∈ s.itemQueue := by
  induction ids generalizing s with
  | nil => exact Iff.rfl
  | cons i ids ih =>
    rw [removeEntries_cons, ih _ (fun hm => h (List.mem_cons_of_mem _ hm))]
    exact mem_eraseFirst_of_ne fun e => h (e ▸ List.mem_cons_self _ _)

theorem removeEntries_itemQueue_nodup (s : State) (ids : List String)
    (h : s.itemQueue.Nodup) : (removeEntries s ids).itemQueue.Nodup := by
  induction ids generalizing s with
  | nil => exact h
  | cons i ids ih =>
    rw [removeEntries_cons]
    exact ih _ (nodup_eraseFirst h i)

theorem removeEntries_itemQueue_of_mem (s : State) {ids : List String}
    {k : String} (hnd : s.itemQueue.Nodup) (h : k ∈ ids) :
    k ∉ (removeEntries s ids).itemQueue := by
  induction ids generalizing s with
  | nil => exact absurd h (List.not_mem_nil _)
  | cons i ids ih =>
    rw [removeEntries_cons]
    by_cases hm : k ∈ ids
    · exact ih _ (nodup_eraseFirst hnd i) hm
    · have hk : k = i := by
        rcases List.mem_cons.mp h with h1 | h1
        · exact h1
        · exact absurd h1 hm
      subst hk
      rw [removeEntries_itemQueue_not_mem _ hm]
      exact not_mem_eraseFirst_self hnd k

theorem getMerge_true_cons (t : UploadOptions) (kv : String × Option String)
    (rest : UploadOptions) :
    getMerge true t (kv :: rest) = getMerge true (setKey t kv.1 kv.2) rest := by
  simp [getMerge]

theorem alookup_getMerge_true_of_not_mem (t : UploadOptions)
    {src : UploadOptions} {k : String} (h : ∀ v, (k, v) ∉ src) :
    alookup (getMerge true t src) k = alookup t k := by
  induction src generalizing t with
  | nil => rfl
  | cons kv rest ih =>
    rw [getMerge_true_cons]
    have hk : k ≠ kv.1 := by
      intro e
      exact h kv.2 (by rw [e]; exact List.mem_cons_self _ _)
    rw [ih _ (fun v hv => h v (List.mem_cons_of_mem _ hv))]
    exact alookup_setKey_ne _ _ hk

theorem alookup_getMerge_true_of_mem (t : UploadOptions) {src : UploadOptions}
    {k : String} {v : Option String} (hnd : (src.map Prod.fst).Nodup)
    (h : (k, v) ∈ src) :
    alookup (getMerge true t src) k = some v := by
  induction src generalizing t with
  | nil => exact absurd h (List.not_mem_nil _)
  | cons kv rest ih =>
    rw [getMerge_true_cons]
    have hnd2 : (kv.1 :: rest.map Prod.fst).Nodup := by simpa using hnd
    rcases List.nodup_cons.mp hnd2 with ⟨hk1, hrest⟩
    rcases List.mem_cons.mp h with he | hm
    · subst he
      have hnotin : ∀ v2, (k, v2) ∉ rest := by
        intro v2 hv2
        exact hk1 (List.mem_map.mpr ⟨(k, v2), hv2, rfl⟩)
      rw [alookup_getMerge_true_of_not_mem _ hnotin]
      exact alookup_setKey_self _ _ _
    · exact ih _ hrest hm

/-! ## Claim theorems -/

/-- **C1** (`preparePendingForUpload`, `batchHelpers.js` 150-169): the pending
batch and its items do transition to added, but the caller's options are merged
with the plain shared `merge`, which ignores a key explicitly overridden with
an unset (undefined) value: the stored default `autoUpload = "true"` survives an
explicit-undefined override, while the claimed explicit-undefined-overwrites
semantics (`mergeWithUndefined`, last conjunct) would have replaced it. -/
theorem preparePendingForUpload_undefined_override_ignored :
    ((alookup (preparePendingForUpload sC1 (some [("autoUpload", none)])).batches
        "b1").map fun bd => bd.batchOptions) =
      some [("autoUpload", some "true")] ∧
    ((alookup (preparePendingForUpload sC1 (some [("autoUpload", none)])).batches
        "b1").map fun bd => bd.batch.state) = some BatchState.added ∧
    ((alookup (preparePendingForUpload sC1 (some [("autoUpload", none)])).batches
        "b1").map fun bd => bd.batch.items.map fun it => it.state) =
      some [FileState.added] ∧
    mergeWithUndefined []
        [some [("autoUpload", some "true")], some [("autoUpload", none)]] =
      [("autoUpload", none)] :=
  ⟨rfl, rfl, rfl, rfl⟩

/-- **C4** counterexample: with a previous batch's id still stored in
`currentBatch`, a cancelled batch-start leaves that id in `currentBatch`:
the operation does leave a batch id there, contrary to the claim that
`currentBatch` ends up unset for every prior value. -/
theorem loadNewBatchForItem_cancel_keeps_prior_cex :
    loadNewBatchForItem sC4 "i1" true =
      some (sC4, false, UploaderEvent.batchStart bC4) ∧
    sC4.currentBatch = some "b0" :=
  ⟨rfl, rfl⟩

/-- **C4** (amended): `loadNewBatchForItem` issues the batch-start interception
carrying the item's batch; if the listener cancels, the state — in particular
`currentBatch`, whatever its prior value — is left unchanged and the operation
returns false; otherwise `currentBatch` is set to the item's batch id and it
returns true. -/
theorem loadNewBatchForItem_spec (s : State) (itemId : String) (b : Batch)
    (h : getBatchFromItemId s itemId = some b) :
    loadNewBatchForItem s itemId true =
      some (s, false, UploaderEvent.batchStart b) ∧
    loadNewBatchForItem s itemId false =
      some ({ s with currentBatch := some b.id }, true,
        UploaderEvent.batchStart b) := by
  constructor <;> simp [loadNewBatchForItem, h]

theorem loadNewBatchForItem_spec_witness :
    loadNewBatchForItem sC4 "i1" true =
      some (sC4, false, UploaderEvent.batchStart bC4) ∧
    loadNewBatchForItem sC4 "i1" false =
      some ({ sC4 with currentBatch := some "b1" }, true,
        UploaderEvent.batchStart bC4) :=
  loadNewBatchForItem_spec sC4 "i1" bC4 rfl

/-- **C5** counterexample: the item is recycled, its previous batch `b0` is
live and still lists the item, yet `detachRecycledFromPreviousBatch` leaves the
state unchanged — no removal — because the store already maps the item to its
new batch `b1`, contrary to the claim that removal happens "including when the
item is already attached to a new batch". -/
theorem detachRecycled_reattached_cex :
    detachRecycledFromPreviousBatch sC5 iC5 = some sC5 ∧
    iC5.recycled = true ∧
    iC5.previousBatch = some "b0" ∧
    ((alookup sC5.batches "b0").map fun bd =>
      bd.batch.items.map fun it => it.id) = some ["i1"] :=
  ⟨rfl, rfl, rfl, rfl⟩

/-- **C5** (amended): removal additionally requires that the store still maps
the item to `previousBatch`. When the item is recycled, `previousBatch` names a
live batch and the store still attaches the item to it, the item is spliced out
of that batch's list, all other keys and state fields untouched; when the store
already attaches the item to a different batch — or any other precondition
fails — the state is unchanged. -/
theorem detachRecycledFromPreviousBatch_spec (s : State) (item : BatchItem) :
    (item.previousBatch = none →
      detachRecycledFromPreviousBatch s item = some s) ∧
    (∀ prev, item.previousBatch = some prev →
      ((item.recycled && (alookup s.batches prev).isSome) = false →
        detachRecycledFromPreviousBatch s item = some s) ∧
      (item.recycled = true → (alookup s.batches prev).isSome = true →
        ∀ b, getBatchFromItemId s item.id = some b →
          (b.id = prev →
            ∃ s2, detachRecycledFromPreviousBatch s item = some s2 ∧
              alookup s2.batches prev =
                (alookup s.batches prev).map (fun bd =>
                  { bd with batch := { bd.batch with
                      items := eraseItemById bd.batch.items item.id } }) ∧
              (∀ k, k ≠ prev → alookup s2.batches k = alookup s.batches k) ∧
              s2.items = s.items ∧ s2.itemQueue = s.itemQueue ∧
              s2.currentBatch = s.currentBatch) ∧
          (b.id ≠ prev →
            detachRecycledFromPreviousBatch s item = some s))) := by
  constructor
  · intro h
    simp [detachRecycledFromPreviousBatch, h]
  · intro prev hprev
    constructor
    · intro hguard
      simp [detachRecycledFromPreviousBatch, hprev, hguard]
    · intro hrec hsome b hb
      constructor
      · intro hid
        refine ⟨{ s with batches := mapValueAt s.batches prev fun bd =>
            { bd with batch := { bd.batch with
                items := eraseItemById bd.batch.items item.id } } },
          ?_, ?_, ?_, rfl, rfl, rfl⟩
        · simp [detachRecycledFromPreviousBatch, hprev, hrec, hsome, hb, hid]
        · simp [alookup_mapValueAt]
        · intro k hk
          simp [alookup_mapValueAt, hk]
      · intro hid
        simp [detachRecycledFromPreviousBatch, hprev, hrec, hsome, hb, hid]

/-- **C3** counterexample: every item of the current batch `b1` is finalized
(aborted) and the batch is finished; both cleanup operations purge the batch
and its items, yet leave `currentBatch` holding `"b1"`: the resulting state has
`currentBatch` set to an id naming no batch at all, so the claimed invariant
"currentBatch, if set, names a batch with at least one non-finalized item" is
not restored. -/
theorem cleanup_stale_currentBatch_cex :
    cleanUpFinishedBatch sC3 = some (sC3after,
      [UploaderEvent.batchFinish
        { id := "b1", state := BatchState.uploading, items := [some iC3] }]) ∧
    ensureNonUploadingBatchCleaned sC3 "b1" = some sC3after ∧
    sC3after.currentBatch = some "b1" ∧
    ¬ currentBatchInvariant sC3after := by
  refine ⟨rfl, rfl, rfl, ?_⟩
  intro h
  rcases h "b1" rfl with ⟨bd, hbd, _⟩
  simp [sC3after, alookup] at hbd

/-- **C3** (amended): after cleanup runs for a batch whose items have all
finalized — `ensureNonUploadingBatchCleaned` when every item of the batch is
finalized, `cleanUpFinishedBatch` when the current batch is finished — the
batch entry and its items are purged from the store, so `currentBatch` no
longer names any batch present in the store; the `currentBatch` field itself
is not cleared and retains the stale id. -/
theorem cleanup_purges_batch_entry :
    (∀ (s : State) (batchId : String) (bd : BatchData),
      alookup s.batches batchId = some bd →
      (∀ it ∈ bd.batch.items, it.state ∈ ITEM_FINALIZE_STATES) →
      ∃ s2, ensureNonUploadingBatchCleaned s batchId = some s2 ∧
        alookup s2.batches batchId = none ∧
        s2.currentBatch = s.currentBatch) ∧
    (∀ (s : State) (batchId : String) (bd : BatchData),
      s.currentBatch = some batchId →
      alookup s.batches batchId = some bd →
      isBatchFinished s = some true →
      ∃ s2 evs, cleanUpFinishedBatch s = some (s2, evs) ∧
        alookup s2.batches batchId = none ∧
        s2.currentBatch = s.currentBatch) := by
  constructor
  · intro s batchId bd hbd hall
    have hfind : bd.batch.items.find?
        (fun it => !(decide (it.state ∈ ITEM_FINALIZE_STATES))) = none := by
      rw [List.find?_eq_none]
      intro it hit
      simp [hall it hit]
    refine ⟨removeBatch
        (removeEntries s (bd.batch.items.map fun it => it.id)) batchId,
      ?_, ?_, ?_⟩
    · simp [ensureNonUploadingBatchCleaned, getBatchFromState, hbd, hfind,
        removeBatchItems]
    · simp [removeBatch, removeEntries_batches, alookup_eraseKey_self]
    · simp [removeBatch, removeEntries_currentBatch]
  · intro s batchId bd hc hbd hfin
    refine ⟨removeBatch
        (removeEntries s (bd.batch.items.map fun it => it.id)) batchId,
      [UploaderEvent.batchFinish
        { id := bd.batch.id, state := bd.batch.state,
          items := bd.batch.items.map fun it => alookup s.items it.id }],
      ?_, ?_, ?_⟩
    · simp [cleanUpFinishedBatch, hc, hbd, hfin, triggerUploaderBatchEvent,
        getBatchFromState, removeBatchItems]
    · simp [removeBatch, removeEntries_batches, alookup_eraseKey_self]
    · simp [removeBatch, removeEntries_currentBatch]

theorem cleanup_purges_batch_entry_witness :
    ∃ s2, ensureNonUploadingBatchCleaned sC3 "b1" = some s2 ∧
      alookup s2.batches "b1" = none ∧ s2.currentBatch = some "b1" := by
  obtain ⟨s2, h1, h2, h3⟩ :=
    cleanup_purges_batch_entry.1 sC3 "b1" bdC3 rfl (by decide)
  exact ⟨s2, h1, h2, h3⟩

/-- **C7**: when `currentBatch` is set, present in the store and finished,
`cleanUpFinishedBatch` emits exactly one batch-finish event carrying the
detached snapshot (the batch's fields with the store-mapping copies of its
items — a pure value subsequent store mutations cannot alter), and then purges
every one of the batch's items from the item mapping and the pending sequence
and removes the batch entry itself, leaving unrelated ids untouched; when a
precondition fails, the state is unchanged and nothing is emitted. -/
theorem cleanUpFinishedBatch_spec :
    (∀ (s : State) (batchId : String) (bd : BatchData),
      s.currentBatch = some batchId →
      alookup s.batches batchId = some bd →
      isBatchFinished s = some true →
      s.itemQueue.Nodup →
      ∃ s2, cleanUpFinishedBatch s = some (s2,
          [UploaderEvent.batchFinish
            { id := bd.batch.id, state := bd.batch.state,
              items := bd.batch.items.map fun it => alookup s.items it.id }]) ∧
        (∀ it ∈ bd.batch.items, alookup s2.items it.id = none) ∧
        (∀ it ∈ bd.batch.items, it.id ∉ s2.itemQueue) ∧
        alookup s2.batches batchId = none ∧
        (∀ k, (∀ it ∈ bd.batch.items, it.id ≠ k) →
          alookup s2.items k = alookup s.items k ∧
          (k ∈ s2.itemQueue ↔ k ∈ s.itemQueue))) ∧
    (∀ s : State,
      (s.currentBatch = none ∨
        (∃ bid, s.currentBatch = some bid ∧ alookup s.batches bid = none) ∨
        isBatchFinished s = some false) →
      cleanUpFinishedBatch s = some (s, [])) := by
  constructor
  · intro s batchId bd hc hbd hfin hnd
    refine ⟨removeBatch
        (removeEntries s (bd.batch.items.map fun it => it.id)) batchId,
      ?_, ?_, ?_, ?_, ?_⟩
    · simp [cleanUpFinishedBatch, hc, hbd, hfin, triggerUploaderBatchEvent,
        getBatchFromState, removeBatchItems]
    · intro it hit
      have hm : it.id ∈ bd.batch.items.map fun it2 => it2.id :=
        List.mem_map.mpr ⟨it, hit, rfl⟩
      simpa [removeBatch] using alookup_removeEntries_of_mem s hm
    · intro it hit
      have hm : it.id ∈ bd.batch.items.map fun it2 => it2.id :=
        List.mem_map.mpr ⟨it, hit, rfl⟩
      simpa [removeBatch] using removeEntries_itemQueue_of_mem s hnd hm
    · simp [removeBatch, removeEntries_batches, alookup_eraseKey_self]
    · intro k hk
      have hnm : k ∉ bd.batch.items.map fun it2 => it2.id := by
        intro hm
        rcases List.mem_map.mp hm with ⟨it, hit, he⟩
        exact hk it hit he
      constructor
      · simpa [removeBatch] using alookup_removeEntries_of_not_mem s hnm
      · simpa [removeBatch] using removeEntries_itemQueue_not_mem s hnm
  · intro s h
    rcases h with h | ⟨bid, h1, h2⟩ | h
    · simp [cleanUpFinishedBatch, h]
    · simp [cleanUpFinishedBatch, h1, h2]
    · cases hc : s.currentBatch with
      | none => simp [cleanUpFinishedBatch, hc]
      | some bid =>
        cases hbd : alookup s.batches bid with
        | none => simp [cleanUpFinishedBatch, hc, hbd]
        | some bd => simp [cleanUpFinishedBatch, hc, hbd, h]

theorem cleanUpFinishedBatch_spec_witness :
    ∃ s2, cleanUpFinishedBatch sC7 = some (s2,
        [UploaderEvent.batchFinish
          { id := "b1", state := BatchState.uploading,
            items := [some iC7a, some iC7b] }]) ∧
      alookup s2.batches "b1" = none := by
  obtain ⟨s2, hmain, hit, hq, hb, hrest⟩ :=
    cleanUpFinishedBatch_spec.1 sC7 "b1" bdC7 rfl rfl rfl (by decide)
  exact ⟨s2, hmain, hb⟩

/-- **C8**: a progress notification for a tracked item rewrites exactly that
item's `loaded`/`completed` counters (all other entries, all other fields of
the item, and all other state components unchanged), then triggers
`ITEM_PROGRESS` with the updated item read back from the new snapshot; a
notification for an untracked item leaves the state unchanged and triggers
nothing — no error is raised in either case (the handler is total). -/
theorem progressHandler_spec :
    (∀ (s : State) (item old : BatchItem) (completed loaded : Nat),
      alookup s.items item.id = some old →
      progressHandler s item completed loaded =
        ({ s with items := updateItemEntry s.items item.id loaded completed },
          [UploaderEvent.itemProgress
            { old with loaded := loaded, completed := completed }]) ∧
      alookup (updateItemEntry s.items item.id loaded completed) item.id =
        some { old with loaded := loaded, completed := completed } ∧
      (∀ k, k ≠ item.id →
        alookup (updateItemEntry s.items item.id loaded completed) k =
          alookup s.items k)) ∧
    (∀ (s : State) (item : BatchItem) (completed loaded : Nat),
      alookup s.items item.id = none →
      progressHandler s item completed loaded = (s, [])) := by
  constructor
  · intro s item old completed loaded h
    have hup : alookup (updateItemEntry s.items item.id loaded completed)
        item.id = some { old with loaded := loaded, completed := completed } := by
      simp [updateItemEntry, alookup_mapValueAt, h]
    refine ⟨?_, hup, ?_⟩
    · simp [progressHandler, h, hup]
    · intro k hk
      simp [updateItemEntry, alookup_mapValueAt, hk]
  · intro s item completed loaded h
    simp [progressHandler, h]

theorem progressHandler_spec_witness :
    progressHandler sC8 iC8 50 7 =
      ({ sC8 with items := updateItemEntry sC8.items "i1" 7 50 },
        [UploaderEvent.itemProgress { iC8 with loaded := 7, completed := 50 }]) ∧
    progressHandler sC8 iC8x 50 7 = (sC8, []) :=
  ⟨(progressHandler_spec.1 sC8 iC8 iC8 50 7 rfl).1,
    progressHandler_spec.2 sC8 iC8x 50 7 rfl⟩

theorem detachRecycledFromPreviousBatch_spec_witness :
    ∃ s2, detachRecycledFromPreviousBatch sC5b iC5 = some s2 ∧
      alookup s2.batches "b0" =
        (alookup sC5b.batches "b0").map (fun bd =>
          { bd with batch := { bd.batch with
              items := eraseItemById bd.batch.items "i1" } }) ∧
      (∀ k, k ≠ "b0" → alookup s2.batches k = alookup sC5b.batches k) ∧
      s2.items = sC5b.items ∧ s2.itemQueue = sC5b.itemQueue ∧
      s2.currentBatch = sC5b.currentBatch :=
  (((detachRecycledFromPreviousBatch_spec sC5b iC5).2 "b0" rfl).2 rfl rfl
    bC5prev rfl).1 rfl

theorem sendChunkSliceStep_url (chunk : Chunk) (cs : ChunkedState)
    (item : BatchItem) : (sendChunkSliceStep chunk cs item).url = cs.url := by
  unfold sendChunkSliceStep
  split
  · split <;> rfl
  · rfl

theorem sendChunkSliceStep_sendOptions (chunk : Chunk) (cs : ChunkedState)
    (item : BatchItem) :
    (sendChunkSliceStep chunk cs item).sendOptions = cs.sendOptions := by
  unfold sendChunkSliceStep
  split
  · split <;> rfl
  · rfl

theorem sendChunk_ok_inv (chunk : Chunk) (cs : ChunkedState) (item : BatchItem)
    (resp : ChunkStartResponse)
    (xhr : String → SendOptions → Option ChunkData → InnerSendResult)
    (r : SendChunkOk)
    (h : sendChunk chunk cs item resp xhr = some (Except.ok r)) :
    ∃ fresh, (sendChunkSliceStep chunk cs item).chunks[chunk.index]? =
        some fresh ∧
      fresh.data.isNone = false ∧
      r = mkSendChunkOk (sendChunkSliceStep chunk cs item) fresh item resp
        xhr := by
  simp only [sendChunk] at h
  split at h
  · exact absurd h (by simp)
  · rename_i fresh hfresh
    split at h
    · exact absurd h (by simp)
    · rename_i hd
      rw [Bool.not_eq_true] at hd
      exact ⟨fresh, hfresh, hd, (Except.ok.inj (Option.some.inj h)).symm⟩

/-- **C2** counterexample: the item's file is empty, so slicing the chunk's
byte range yields no data; `sendChunk` then throws `ChunkedSendError`
synchronously to its caller (`Except.error` in the model), rather than
returning a send result whose request rejects, contrary to the claim. -/
theorem sendChunk_throws_sync_cex :
    sendChunk chC2 csC2 itC2 ChunkStartResponse.proceed xhr0 =
      some (Except.error "chunk failure - failed to slice") := rfl

/-- **C2** (amended): when the fresh chunk's data cannot be materialized (the
stored chunk after the slice step still holds no data), the single-chunk send
throws `ChunkedSendError` synchronously to its caller; it performs no network
call and does not itself return a send result, rejected or otherwise —
surfacing the failure as a rejected outcome is the surrounding
chunk-sequencing loop's job. -/
theorem sendChunk_throws_on_unmaterialized_data (chunk : Chunk)
    (cs : ChunkedState) (item : BatchItem) (resp : ChunkStartResponse)
    (xhr : String → SendOptions → Option ChunkData → InnerSendResult)
    (fresh : Chunk)
    (hfresh : (sendChunkSliceStep chunk cs item).chunks[chunk.index]? =
      some fresh)
    (hdata : fresh.data = none) :
    sendChunk chunk cs item resp xhr =
      some (Except.error "chunk failure - failed to slice") := by
  simp only [sendChunk]
  rw [hfresh]
  simp [hdata]

theorem sendChunk_throws_on_unmaterialized_data_witness :
    sendChunk chC2 csC2 itC2 ChunkStartResponse.skip xhr0 =
      some (Except.error "chunk failure - failed to slice") :=
  sendChunk_throws_on_unmaterialized_data chC2 csC2 itC2
    ChunkStartResponse.skip xhr0 { chC2 with data := none } rfl rfl

/-- **C6** counterexample: the `CHUNK_START` listener returns an override whose
`url` property is explicitly present but unset (undefined). Under the claimed
explicit-undefined-overwrites merge over the base options and URL, the merged
URL would be the unset override value; the code instead falls back to the base
URL (`updatedData?.url || state.url`), so the network call is not made with
the claim's merged URL. -/
theorem chunkStart_url_override_cex :
    sentUrl (sendChunk chC6 csC6 itC6 (ChunkStartResponse.update dC6) xhr0) =
      some "https://base" ∧
    claimMergedUrl "https://base" dC6 = none ∧
    some "https://base" ≠ (none : Option String) :=
  ⟨rfl, rfl, by simp⟩

/-- **C6** (amended): with the fresh chunk's data materialized —
(a) a skip answer yields the synthetic skipped result: no network call, a
request resolving to the finished state with success status 200, and an abort
reporting success; (b) an override answer sends to the override URL only when
it is a non-empty string, otherwise to the base URL (an explicitly-undefined
or empty URL does not overwrite it), with options merged over the base via
`mergeWithUndefined` — a key present in the override's fields, even one
holding an explicit undefined, overwrites the base (third conjunct); (c) no
answer sends to the base URL with the base options unchanged. The base URL
and sendOptions are those of the chunked state (last conjunct). -/
theorem sendChunk_chunkStart_response_spec (chunk : Chunk) (cs : ChunkedState)
    (item : BatchItem)
    (xhr : String → SendOptions → Option ChunkData → InnerSendResult)
    (fresh : Chunk) (d : ChunkData)
    (hfresh : (sendChunkSliceStep chunk cs item).chunks[chunk.index]? =
      some fresh)
    (hdata : fresh.data = some d) :
    (∃ r, sendChunk chunk cs item ChunkStartResponse.skip xhr =
        some (Except.ok r) ∧
      r.outcome = ChunkSendOutcome.skipped ∧
      r.result.inner.value = getSkippedResult ∧
      r.result.inner.value.request.state = FileState.finished ∧
      r.result.inner.value.request.status = 200 ∧
      r.result.inner.value.abortReturns = true) ∧
    (∀ dta : UpdatedData, ∃ r,
      sendChunk chunk cs item (ChunkStartResponse.update dta) xhr =
        some (Except.ok r) ∧
      r.outcome = ChunkSendOutcome.sent
        (match dta.url.join with
          | some u =>
            if u = "" then (sendChunkSliceStep chunk cs item).url else u
          | none => (sendChunkSliceStep chunk cs item).url)
        (mergeSendOptions
          (baseChunkSendOptions (sendChunkSliceStep chunk cs item) fresh item)
          dta.sendOptions)
        fresh.data) ∧
    (∀ (p : SendOptionsPatch) (k : String) (v : Option String),
      (p.fields.map Prod.fst).Nodup → (k, v) ∈ p.fields →
      alookup (mergeSendOptions
        (baseChunkSendOptions (sendChunkSliceStep chunk cs item) fresh item)
        (some p)).fields k = some v) ∧
    (∃ r, sendChunk chunk cs item ChunkStartResponse.proceed xhr =
        some (Except.ok r) ∧
      r.outcome = ChunkSendOutcome.sent (sendChunkSliceStep chunk cs item).url
        (baseChunkSendOptions (sendChunkSliceStep chunk cs item) fresh item)
        fresh.data) ∧
    (sendChunkSliceStep chunk cs item).url = cs.url ∧
    (sendChunkSliceStep chunk cs item).sendOptions = cs.sendOptions := by
  have hsend : ∀ resp, sendChunk chunk cs item resp xhr =
      some (Except.ok
        (mkSendChunkOk (sendChunkSliceStep chunk cs item) fresh item resp
          xhr)) := by
    intro resp
    simp only [sendChunk]
    rw [hfresh]
    simp [hdata]
  refine ⟨⟨_, hsend _, rfl, rfl, rfl, rfl, rfl⟩,
    fun dta => ⟨_, hsend _, rfl⟩,
    fun p k v hnd hm => ?_,
    ⟨_, hsend _, rfl⟩,
    sendChunkSliceStep_url chunk cs item,
    sendChunkSliceStep_sendOptions chunk cs item⟩
  simp only [mergeSendOptions]
  exact alookup_getMerge_true_of_mem _ hnd hm

theorem sendChunk_chunkStart_response_spec_witness :
    ∃ r, sendChunk chC6 csC6 itC6 ChunkStartResponse.skip xhr0 =
        some (Except.ok r) ∧
      r.outcome = ChunkSendOutcome.skipped ∧
      r.result.inner.value = getSkippedResult ∧
      r.result.inner.value.request.state = FileState.finished ∧
      r.result.inner.value.request.status = 200 ∧
      r.result.inner.value.abortReturns = true :=
  (sendChunk_chunkStart_response_spec chC6 csC6 itC6 xhr0 chC6 ⟨4⟩ rfl rfl).1

/-- **C9**: the abort returned by `sendChunk` reports success immediately (its
own return value is true), and the forwarding to the transport handle is
registered on the chunk request promise with `.then`: the handle's abort is
invoked with the handle's value once the promise resolves, so an abort
requested before the handle exists is queued on the pending promise rather
than lost (in this always-resolving promise model, registration time is
immaterial: the continuation always receives the handle). -/
theorem sendChunk_abort_spec (chunk : Chunk) (cs : ChunkedState)
    (item : BatchItem) (resp : ChunkStartResponse)
    (xhr : String → SendOptions → Option ChunkData → InnerSendResult)
    (r : SendChunkOk)
    (h : sendChunk chunk cs item resp xhr = some (Except.ok r)) :
    r.result.abortImmediate = true ∧
    r.result.abortForwarded = r.result.inner.dthen (fun i => i.abortReturns) ∧
    r.result.abortForwarded.value = r.result.inner.value.abortReturns := by
  obtain ⟨fresh, hfresh, hd, rfl⟩ :=
    sendChunk_ok_inv chunk cs item resp xhr r h
  exact ⟨rfl, rfl, rfl⟩

theorem sendChunk_abort_spec_witness :
    okC9.result.abortImmediate = true ∧
    okC9.result.abortForwarded = okC9.result.inner.dthen (fun i => i.abortReturns) ∧
    okC9.result.abortForwarded.value = okC9.result.inner.value.abortReturns :=
  sendChunk_abort_spec chC6 csC6 itC6 ChunkStartResponse.skip xhr0 okC9 rfl

/-- **C10**: the file is sliced only when the caller-passed chunk's data is
not already materialized (existing data — e.g. a retry — is reused and the
chunked state left untouched); when it is missing, the slice over the chunk's
byte range is written onto the stored chunk; and the send always operates on
the fresh chunk re-read from the chunked state immediately before sending:
the used chunk, the upload outcome and the failed-slice validation are all
computed from the stored entry, never from the caller-passed argument's
possibly stale fields. -/
theorem sendChunk_fresh_chunk_spec :
    (∀ (chunk : Chunk) (cs : ChunkedState) (item : BatchItem) (d : ChunkData),
      chunk.data = some d → sendChunkSliceStep chunk cs item = cs) ∧
    (∀ (chunk : Chunk) (cs : ChunkedState) (item : BatchItem) (stored : Chunk),
      chunk.data = none →
      cs.chunks[chunk.index]? = some stored →
      (sendChunkSliceStep chunk cs item).chunks[chunk.index]? =
        some { stored with
          data := getChunkDataFromFile item.file chunk.start chunk.endByte }) ∧
    (∀ (chunk : Chunk) (cs : ChunkedState) (item : BatchItem)
        (resp : ChunkStartResponse)
        (xhr : String → SendOptions → Option ChunkData → InnerSendResult)
        (r : SendChunkOk),
      sendChunk chunk cs item resp xhr = some (Except.ok r) →
      (sendChunkSliceStep chunk cs item).chunks[chunk.index]? =
        some r.usedChunk ∧
      r.newState = sendChunkSliceStep chunk cs item ∧
      r.outcome = uploadChunkWithUpdatedData (sendChunkSliceStep chunk cs item)
        r.usedChunk item resp) ∧
    (∀ (chunk : Chunk) (cs : ChunkedState) (item : BatchItem)
        (resp : ChunkStartResponse)
        (xhr : String → SendOptions → Option ChunkData → InnerSendResult)
        (fresh : Chunk),
      (sendChunkSliceStep chunk cs item).chunks[chunk.index]? = some fresh →
      (sendChunk chunk cs item resp xhr =
          some (Except.error "chunk failure - failed to slice") ↔
        fresh.data = none)) := by
  refine ⟨?_, ?_, ?_, ?_⟩
  · intro chunk cs item d h
    simp [sendChunkSliceStep, h]
  · intro chunk cs item stored h hstored
    have hlt : chunk.index < cs.chunks.length :=
      (List.getElem?_eq_some.mp hstored).1
    simp [sendChunkSliceStep, h, hstored,
      List.getElem?_set_eq_of_lt _ hlt]
  · intro chunk cs item resp xhr r h
    obtain ⟨fresh, hfresh, hd, rfl⟩ :=
      sendChunk_ok_inv chunk cs item resp xhr r h
    exact ⟨hfresh, rfl, rfl⟩
  · intro chunk cs item resp xhr fresh hfresh
    simp only [sendChunk]
    rw [hfresh]
    cases hd : fresh.data with
    | none => simp [hd]
    | some d => simp [hd, mkSendChunkOk]

theorem sendChunk_fresh_chunk_spec_witness :
    sendChunkSliceStep chC6 csC6 itC6 = csC6 :=
  sendChunk_fresh_chunk_spec.1 chC6 csC6 itC6 ⟨4⟩ rfl

end Uploady
